import Mathlib

/-!
Shallow embedding of the warehouse stock / in-transit shipment application
(single Python source file).  Strings are modelled as lists of characters,
pandas Timestamps (day precision) as integer day numbers, quantities as
rationals, and missing values (NaN / NaT) as `Option.none`.

The regular expressions used by the source all have the shape
"literal .* (alt1|alt2) .*": a sequence of atoms (each a literal or an
alternation of literals) separated by unconstrained gaps.  `re.search` of
such a pattern succeeds iff the atoms occur, in order, somewhere in the
text; matching each atom at its leftmost occurrence is complete for this
shape, which is how `matchAtoms` below decides a match.
-/

/-- Remainder of the text after consuming `needle` as a literal at the head,
if it is a prefix of the text. -/
def eatLit : List Char → List Char → Option (List Char)
  | [], s => some s
  | _ :: _, [] => none
  | c :: cs, d :: ds => if c = d then eatLit cs ds else none

/-- Remainder of the text after the first (leftmost) occurrence of the
literal `needle`, or `none` when it does not occur. -/
def afterFirst (needle : List Char) : List Char → Option (List Char)
  | [] => eatLit needle []
  | d :: ds =>
    match eatLit needle (d :: ds) with
    | some r => some r
    | none => afterFirst needle ds

/-- Whether the literal occurs somewhere in the text. -/
def containsLit (needle : String) (s : String) : Bool :=
  (afterFirst needle.data s.data).isSome

/-- Decide a search of a pattern consisting of atoms separated by `.*` gaps,
where each atom is an alternation of literals.  Each alternative is tried at
its leftmost occurrence; anything may stand between consecutive atoms. -/
def matchAtoms : List (List String) → List Char → Bool
  | [], _ => true
  | alts :: rest, s =>
    alts.any (fun a =>
      match afterFirst a.data s with
      | some r => matchAtoms rest r
      | none => false)

/-- The ordered rule list RULES of the source: each regex
"lit .* (a|b) .*" is embedded as its list of atoms plus the target name. -/
def RULES : List (List (List String) × String) := [
  ([["白色粉末"], ["T", "甜"]], "白色粉末甜味优镁粉"),
  ([["白色粉末"], ["白皮"]], "白色粉末（白皮）"),
  ([["白色粉末"], ["优乐粉"]], "白色粉末优乐粉"),
  ([["白色粉末"], ["优镁粉"]], "白色粉末优镁粉"),
  ([["白色粉末"]], "白色粉末优镁粉"),
  ([["金黄色粉末"], ["新配方"]], "金黄色粉末优镁粉2号"),
  ([["金黄色粉末"], ["1号"]], "金黄色粉末优镁粉1号"),
  ([["金黄色粉末"], ["2号"]], "金黄色粉末优镁粉2号"),
  ([["金黄色粉末"], ["优镁粉"]], "金黄色粉末优镁粉1号"),
  ([["金黄色粉末"]], "金黄色粉末优镁粉1号"),
  ([["深黄色粉末"], ["T", "甜"]], "深黄色粉末甜味优镁粉"),
  ([["深黄色粉末"], ["优镁粉"]], "深黄色粉末优镁粉"),
  ([["深黄色粉末"]], "深黄色粉末优镁粉"),
  ([["浅黄色粉末"]], "浅黄色粉末优镁粉"),
  ([["棕色"], ["1号"]], "棕色1号优镁粉"),
  ([["棕色"], ["0号", "2号"]], "棕色2号优镁粉")]

/-- The fixed ten-element canonical category list (display order). -/
def PREFERRED_ORDER : List String := [
  "白色粉末优镁粉", "白色粉末甜味优镁粉", "白色粉末（白皮）",
  "金黄色粉末优镁粉1号", "金黄色粉末优镁粉2号",
  "深黄色粉末优镁粉", "深黄色粉末甜味优镁粉",
  "浅黄色粉末优镁粉", "棕色1号优镁粉", "棕色2号优镁粉"]

/-- Strip leading and trailing whitespace, like Python str.strip. -/
def trimChars (s : List Char) : List Char :=
  ((s.dropWhile Char.isWhitespace).reverse.dropWhile Char.isWhitespace).reverse

/-- Whether the text starts with optional whitespace followed by the ton
marker, embedding the regex tail "\s*吨". -/
def tonAfter (r : List Char) : Bool :=
  match r.dropWhile Char.isWhitespace with
  | c :: _ => c = '吨'
  | [] => false

/-- Whether the text starts with "\d+(\.\d+)?\s*吨", the numeric part of the
tonnage-suffix pattern of the pre-cleaning substitution. -/
def numThenTon (r : List Char) : Bool :=
  let ds := r.takeWhile Char.isDigit
  let r1 := r.dropWhile Char.isDigit
  if ds.isEmpty then false
  else
    match r1 with
    | '.' :: r2 =>
      let fs := r2.takeWhile Char.isDigit
      let r3 := r2.dropWhile Char.isDigit
      if fs.isEmpty then tonAfter r1 else (tonAfter r3 || tonAfter r1)
    | _ => tonAfter r1

/-- Match of the substitution pattern "(（?白皮）?)\s*\d+(\.\d+)?\s*吨.*" at
the head of the text: on success returns the first capture group (the
consumed 白皮 part, parentheses as matched), the rest being dropped by the
replacement because ".*" extends to the end of the line. -/
def cleanAt : List Char → Option (List Char)
  | '（' :: r0 =>
    (match eatLit ['白', '皮'] r0 with
     | some r1 =>
       (match r1 with
        | '）' :: r2 =>
          if numThenTon (r2.dropWhile Char.isWhitespace) then some ['（', '白', '皮', '）'] else none
        | _ =>
          if numThenTon (r1.dropWhile Char.isWhitespace) then some ['（', '白', '皮'] else none)
     | none => none)
  | '白' :: '皮' :: r1 =>
    (match r1 with
     | '）' :: r2 =>
       if numThenTon (r2.dropWhile Char.isWhitespace) then some ['白', '皮', '）'] else none
     | _ =>
       if numThenTon (r1.dropWhile Char.isWhitespace) then some ['白', '皮'] else none)
  | _ => none

/-- The pre-cleaning substitution of normalize_product: replace the leftmost
occurrence of "(（?白皮）?)\s*\d+(\.\d+)?\s*吨.*" by its first group. -/
def preClean : List Char → List Char
  | [] => []
  | c :: rest =>
    match cleanAt (c :: rest) with
    | some g => g
    | none => c :: preClean rest

/-- First rule of RULES whose pattern matches the text; its target. -/
def firstRuleTarget (s : List Char) : Option String :=
  (RULES.find? (fun r => matchAtoms r.1 s)).map (fun r => r.2)

/-- normalize_product of the source: strip, pre-clean the tonnage suffix,
then return the target of the first matching rule, none when no rule
matches. -/
def normalize_product (name : String) : Option String :=
  firstRuleTarget (preClean (trimChars name.data))

/-- Numeric value of a digit string. -/
def digitsVal (ds : List Char) : Nat :=
  ds.foldl (fun a c => a * 10 + (c.toNat - 48)) 0

/-- Match of the quantity pattern "([0-9]+(\.[0-9]+)?)\s*吨" at the head of
the text: on success the value of the first capture group as a rational. -/
def qtyAt (s : List Char) : Option ℚ :=
  if (s.takeWhile Char.isDigit).isEmpty then none
  else
    match s.dropWhile Char.isDigit with
    | '.' :: r2 =>
      if (r2.takeWhile Char.isDigit).isEmpty then
        (if tonAfter ('.' :: r2) then some (digitsVal (s.takeWhile Char.isDigit) : ℚ) else none)
      else if tonAfter (r2.dropWhile Char.isDigit) then
        some ((digitsVal (s.takeWhile Char.isDigit) : ℚ) +
          (digitsVal (r2.takeWhile Char.isDigit) : ℚ) / (10 : ℚ) ^ (r2.takeWhile Char.isDigit).length)
      else if tonAfter ('.' :: r2) then some (digitsVal (s.takeWhile Char.isDigit) : ℚ)
      else none
    | r1 => if tonAfter r1 then some (digitsVal (s.takeWhile Char.isDigit) : ℚ) else none

/-- re.search of the quantity pattern: leftmost match wins. -/
def findQty : List Char → Option ℚ
  | [] => none
  | c :: rest =>
    match qtyAt (c :: rest) with
    | some q => some q
    | none => findQty rest

/-- Separator set of the product-field split: plus, comma, full-width comma. -/
def isSep (c : Char) : Bool := c = '+' || c = ',' || c = '，'

/-- re.split on the separator set. -/
def splitSeps : List Char → List (List Char)
  | [] => [[]]
  | c :: rest =>
    if isSep c then [] :: splitSeps rest
    else
      match splitSeps rest with
      | [] => [[c]]
      | p :: ps => (c :: p) :: ps

/-- One row of the tracking table after the warehouse-keyword filter.
Dates are day numbers; missing cells are none. -/
structure TrackRow where
  prodText : String
  container : Option String
  shipDate : Option Int
  etaPort : Option Int
  etaDest : Option Int
  warehouse : Option String
  carrier : Option String

/-- One extracted shipment item (one row of items_df). -/
structure Item where
  container : Option String
  rawText : String
  category : String
  qty : ℚ
  shipDate : Option Int
  etaPort : Option Int
  etaDest : Option Int
  warehouse : Option String
  carrier : Option String
deriving DecidableEq

/-- split_product_items of the source: split the composite product field on
the separators, keep the substrings carrying a quantity token and a
normalizable name, and emit one item per such substring, copying the parent
row's fields. -/
def split_product_items (row : TrackRow) : List Item :=
  (splitSeps row.prodText.data).filterMap (fun part =>
    let p := trimChars part
    match findQty p with
    | none => none
    | some qty =>
      match normalize_product (String.mk p) with
      | none => none
      | some base =>
        some { container := row.container, rawText := String.mk p, category := base,
               qty := qty, shipDate := row.shipDate, etaPort := row.etaPort,
               etaDest := row.etaDest, warehouse := row.warehouse, carrier := row.carrier })

/-- All items of a list of tracking rows, in row order. -/
def itemsOf (rows : List TrackRow) : List Item :=
  rows.flatMap split_product_items

/-- A civil calendar date. -/
structure YMD where
  y : Int
  m : Int
  d : Int
deriving DecidableEq

/-- Day number of a civil date (days since 1970-01-01, Hinnant's
days-from-civil algorithm with floor divisions). -/
def daysFromCivil (y m d : Int) : Int :=
  let yy := if m ≤ 2 then y - 1 else y
  let era := Int.ediv yy 400
  let yoe := yy - era * 400
  let mp := Int.emod (m + 9) 12
  let doy := Int.ediv (153 * mp + 2) 5 + d - 1
  let doe := yoe * 365 + Int.ediv yoe 4 - Int.ediv yoe 100 + doy
  era * 146097 + doe - 719468

/-- Civil date of a day number (inverse algorithm). -/
def civilFromDays (z0 : Int) : YMD :=
  let z := z0 + 719468
  let era := Int.ediv z 146097
  let doe := z - era * 146097
  let yoe := Int.ediv (doe - Int.ediv doe 1460 + Int.ediv doe 36524 - Int.ediv doe 146096) 365
  let y := yoe + era * 400
  let doy := doe - (365 * yoe + Int.ediv yoe 4 - Int.ediv yoe 100)
  let mp := Int.ediv (5 * doy + 2) 153
  let dd := doy - Int.ediv (153 * mp + 2) 5 + 1
  let mm := if mp < 10 then mp + 3 else mp - 9
  { y := if mm ≤ 2 then y + 1 else y, m := mm, d := dd }

/-- Weekday of a day number, Monday = 0 (1970-01-01 was a Thursday). -/
def weekdayOf (n : Int) : Int := Int.emod (n + 3) 7

/-- Decimal rendering left-padded with zeros to width k. -/
def padZeros (k : Nat) (n : Int) : String :=
  let s := toString n
  if s.length < k then String.mk (List.replicate (k - s.length) '0') ++ s else s

/-- strftime of a day number in the %Y-%m-%d format. -/
def fmtDate (n : Int) : String :=
  let c := civilFromDays n
  padZeros 4 c.y ++ "-" ++ padZeros 2 c.m ++ "-" ++ padZeros 2 c.d

/-- The in-transit test of the source: destination arrival missing or on
or after today. -/
def isInTransit (today : Int) (it : Item) : Bool :=
  match it.etaDest with
  | none => true
  | some d => today ≤ d

/-- intransit_df: the items classified as in transit. -/
def intransitItems (today : Int) (items : List Item) : List Item :=
  items.filter (isInTransit today)

/-- Effective arrival date of an item: destination ETA filled with port
ETA (the fillna of the cutoff projection and the calendar interval end). -/
def effArrival (it : Item) : Option Int :=
  match it.etaDest with
  | some d => some d
  | none => it.etaPort

/-- Port arrival used by the shipment-date label: port ETA, destination
ETA as the fallback (the or-chain of label_for). -/
def effPortFirst (it : Item) : Option Int :=
  match it.etaPort with
  | some p => some p
  | none => it.etaDest

/-- label_for of the source: the shipment-date label, none when the ship
date or the port arrival (after fallback) is missing. -/
def label_for (it : Item) : Option String :=
  match it.shipDate, effPortFirst it with
  | some s, some p => some ("装货日期" ++ fmtDate s ++ "（" ++ toString (p - s) ++ "天到）")
  | _, _ => none

/-- Sum of the quantities of a list of items. -/
def sumQty (l : List Item) : ℚ := (l.map Item.qty).sum

/-- Whether the effective arrival date is present and on or before the
cutoff (a missing effective date compares false, like NaT). -/
def effLeCutoff (cutoff : Int) (it : Item) : Bool :=
  match effArrival it with
  | some e => e ≤ cutoff
  | none => false

/-- in-transit total of a category (运送途中数量). -/
def inTransitTotal (today : Int) (items : List Item) (c : String) : ℚ :=
  sumQty ((intransitItems today items).filter (fun it => it.category == c))

/-- Quantity expected by the cutoff for a category (截止日预计到货): in
transit and effective arrival on or before the cutoff. -/
def arriveByCutoff (today cutoff : Int) (items : List Item) (c : String) : ℚ :=
  sumQty ((intransitItems today items).filter
    (fun it => it.category == c && effLeCutoff cutoff it))

/-- Quantity of a category grouped under one shipment-date label
(one cell of the lab_tbl wide table). -/
def labelBucket (today : Int) (items : List Item) (c lab : String) : ℚ :=
  sumQty ((intransitItems today items).filter
    (fun it => it.category == c && label_for it == some lab))

/-- One row of the stock table. -/
structure StockRow where
  prodText : String
  actualQty : Option ℚ
  recordedQty : Option ℚ
  note : Option String

/-- Normalized category of a stock row: normalize_product, the raw text
when no rule matches, then the legacy brown grade 0 remap. -/
def stockCategory (r : StockRow) : String :=
  let n := (normalize_product r.prodText).getD r.prodText
  if n = "棕色0号优镁粉" then "棕色2号优镁粉" else n

/-- Actual stock of a category: sum over the stock rows that normalize to
a canonical category equal to c (missing quantities count 0, like a pandas
sum; a category with no row contributes 0, like the fillna of the merge). -/
def actualStock (stock : List StockRow) (c : String) : ℚ :=
  ((stock.filter (fun r => decide (stockCategory r ∈ PREFERRED_ORDER) && stockCategory r == c)).map
    (fun r => r.actualQty.getD 0)).sum

/-- The projected stock at the cutoff (预计江门库存数量（截止X日）):
actual stock plus the quantity expected by the cutoff. -/
def projectedStock (stock : List StockRow) (items : List Item) (today cutoff : Int) (c : String) : ℚ :=
  actualStock stock c + arriveByCutoff today cutoff items c

/-- One calendar event of make_events_for_product (clipped bar plus the
label data of the full interval). -/
structure Ev where
  startD : Int
  endD : Int
  datestr : String
  days : Int
  qty : ℚ
  carrier : String
  warehouse : String
  container : String
deriving DecidableEq

/-- Event of one in-transit item: skip when the ship date is missing,
default the arrival to ship date + 7 when missing, clip to the window,
skip when the clipped interval is empty, and keep the unclipped day count
and date range for the label. -/
def evOf (windowStart wd : Int) (r : Item) : Option Ev :=
  match r.shipDate with
  | none => none
  | some sd =>
    if min ((effArrival r).getD (sd + 7)) (windowStart + wd - 1) < max sd windowStart then none
    else
      some { startD := max sd windowStart,
             endD := min ((effArrival r).getD (sd + 7)) (windowStart + wd - 1),
             datestr := fmtDate sd ++ " ~ " ++ fmtDate ((effArrival r).getD (sd + 7)),
             days := (effArrival r).getD (sd + 7) - sd + 1, qty := r.qty,
             carrier := r.carrier.getD "", warehouse := r.warehouse.getD "",
             container := r.container.getD "" }

/-- make_events_for_product of the source, over the in-transit items. -/
def make_events_for_product (intransitL : List Item) (prod : String) (windowStart wd : Int) : List Ev :=
  (intransitL.filter (fun it => it.category == prod)).filterMap (evOf windowStart wd)

/-- Months (year, month) whose first day is on or before the window end,
starting from the month of the window start (the month loop of the
calendar builder, fuelled for termination). -/
def monthsFromFuel : Nat → Int → Int → Int → List (Int × Int)
  | 0, _, _, _ => []
  | fuel + 1, y, m, windowEnd =>
    if daysFromCivil y m 1 ≤ windowEnd then
      (y, m) :: (if m = 12 then monthsFromFuel fuel (y + 1) 1 windowEnd
                 else monthsFromFuel fuel y (m + 1) windowEnd)
    else []

/-- The months covering a window of wd days. -/
def monthsOf (windowStart wd : Int) : List (Int × Int) :=
  let c := civilFromDays windowStart
  monthsFromFuel (wd.toNat + 1) c.y c.m (windowStart + wd - 1)

/-- Monday start days of the week rows of a month grid (the
monthdatescalendar convention: from the Monday on or before the first of
the month through the Sunday on or after its last day). -/
def weekStartsOfMonth (y m : Int) : List Int :=
  let first := daysFromCivil y m 1
  let last := (if m = 12 then daysFromCivil (y + 1) 1 1 else daysFromCivil y (m + 1) 1) - 1
  let gs := first - weekdayOf first
  let ge := last + (6 - weekdayOf last)
  (List.range (Int.ediv (ge - gs + 1) 7).toNat).map (fun i => gs + 7 * i)

/-- All week rows of the months of the window, as Monday start days. -/
def weekRowsOfWindow (windowStart wd : Int) : List Int :=
  (monthsOf windowStart wd).flatMap (fun ym => weekStartsOfMonth ym.1 ym.2)

/-- Bar segments of one event across the week rows: for each week row it
intersects, the (week start, column index, column span) of the bar. -/
def segsOfEvent (weeks : List Int) (ev : Ev) : List (Int × Int × Int) :=
  weeks.filterMap (fun wks =>
    let segS := max ev.startD wks
    let segE := min ev.endD (wks + 6)
    if segE < segS then none
    else some (wks, weekdayOf segS, segE - segS + 1))

/-- The fixed carrier palette. -/
def PALETTE : List String := [
  "#FAD7A0", "#AED6F1", "#A9DFBF", "#F5B7B1", "#D7BDE2",
  "#F9E79F", "#85C1E9", "#ABEBC6", "#F8C471", "#F5CBA7"]

/-- Palette entry of a sort position (cycling modulo the palette length). -/
def palAt (i : Nat) : String := PALETTE.getD (i % PALETTE.length) ""

/-- The distinct non-missing carriers of the in-transit items
(dropna + unique; only the resulting set matters, the map is built from
its sorted form). -/
def carriersOf (l : List Item) : List String :=
  (l.filterMap Item.carrier).dedup

/-- The distinct carriers sorted lexicographically. -/
def sortedCarriers (l : List Item) : List String :=
  List.insertionSort (fun a b => a ≤ b) (carriersOf l)

/-- Association list pairing each name with the palette entry of its
position (the enumerate of the color_map comprehension). -/
def withPal : Nat → List String → List (String × String)
  | _, [] => []
  | i, c :: tl => (c, palAt i) :: withPal (i + 1) tl

/-- color_map of the source: sorted distinct carriers, palette cycled by
sort position. -/
def colorMapOf (l : List Item) : List (String × String) :=
  withPal 0 (sortedCarriers l)

/-- Dictionary lookup with a default (color_map.get of the source). -/
def colorGet (m : List (String × String)) (dflt c : String) : String :=
  ((m.find? (fun q => q.1 == c)).map (fun q => q.2)).getD dflt


/-! Helper lemmas. -/

lemma sumQty_cons (a : Item) (l : List Item) : sumQty (a :: l) = a.qty + sumQty l := by
  simp [sumQty]

lemma sumQty_filter_split (l : List Item) (p q : Item → Bool) :
    sumQty (l.filter fun x => p x && q x) + sumQty (l.filter fun x => p x && !q x)
      = sumQty (l.filter p) := by
  induction l with
  | nil => simp [sumQty]
  | cons a t ih =>
    by_cases hp : p a = true <;> by_cases hq : q a = true <;>
      simp [List.filter_cons, hp, hq, sumQty_cons, ← ih] <;> ring

lemma sumQty_filter_mono (l : List Item) (p q : Item → Bool)
    (hpq : ∀ x ∈ l, p x = true → q x = true)
    (h0 : ∀ x ∈ l, 0 ≤ x.qty) :
    sumQty (l.filter p) ≤ sumQty (l.filter q) := by
  induction l with
  | nil => simp [sumQty]
  | cons a t ih =>
    have ht : sumQty (t.filter p) ≤ sumQty (t.filter q) :=
      ih (fun x hx => hpq x (List.mem_cons_of_mem _ hx))
         (fun x hx => h0 x (List.mem_cons_of_mem _ hx))
    by_cases hp : p a = true
    · have hqa := hpq a (List.mem_cons_self _ _) hp
      simp only [List.filter_cons, hp, hqa, if_true, sumQty_cons]
      linarith
    · by_cases hqa : q a = true
      · simp [List.filter_cons, hp, hqa, sumQty_cons]
        have h0a := h0 a (List.mem_cons_self _ _)
        linarith
      · simp [List.filter_cons, hp, hqa]
        exact ht

lemma qtyAt_nonneg {s : List Char} {q : ℚ} (h : qtyAt s = some q) : 0 ≤ q := by
  unfold qtyAt at h
  split at h
  · exact absurd h (by simp)
  · split at h
    · split at h
      · split at h
        · injection h with h; subst h; positivity
        · exact absurd h (by simp)
      · split at h
        · injection h with h; subst h; positivity
        · split at h
          · injection h with h; subst h; positivity
          · exact absurd h (by simp)
    · split at h
      · injection h with h; subst h; positivity
      · exact absurd h (by simp)

lemma findQty_nonneg {s : List Char} {q : ℚ} (h : findQty s = some q) : 0 ≤ q := by
  induction s with
  | nil => exact absurd h (by simp [findQty])
  | cons c rest ih =>
    unfold findQty at h
    split at h
    · injection h with h; subst h
      next hq => exact qtyAt_nonneg hq
    · exact ih h

lemma normalize_mem_targets {s c : String} (h : normalize_product s = some c) :
    c ∈ RULES.map Prod.snd := by
  unfold normalize_product firstRuleTarget at h
  rcases Option.map_eq_some'.1 h with ⟨r, hr, hc⟩
  subst hc
  exact List.mem_map_of_mem _ (List.mem_of_find?_eq_some hr)

lemma norm_idem_targets : ∀ c ∈ RULES.map Prod.snd, normalize_product c = some c := by
  decide

lemma split_items_sound {row : TrackRow} {it : Item} (h : it ∈ split_product_items row) :
    it.category ∈ RULES.map Prod.snd ∧ 0 ≤ it.qty := by
  unfold split_product_items at h
  rcases List.mem_filterMap.1 h with ⟨part, hmem, hf⟩
  simp only at hf
  rcases hq : findQty (trimChars part) with _ | q
  · rw [hq] at hf; exact absurd hf (by simp)
  · rw [hq] at hf
    rcases hn : normalize_product (String.mk (trimChars part)) with _ | base
    · rw [hn] at hf; exact absurd hf (by simp)
    · rw [hn] at hf
      have he := Option.some.inj hf
      subst he
      exact ⟨normalize_mem_targets hn, findQty_nonneg hq⟩

/-! Claim theorems. -/

/-- C1: for every category, the projected stock at the cutoff equals the
actual stock plus the sum of the quantities of the in-transit items of that
category whose effective arrival date (destination ETA, else port ETA) is
on or before the cutoff; in-transit items whose effective arrival is
strictly after the cutoff or not computable are excluded from that sum but
still counted in the in-transit total. -/
theorem C1_projection (stock : List StockRow) (items : List Item) (today cutoff : Int) (c : String) :
    projectedStock stock items today cutoff c
      = actualStock stock c +
        sumQty ((intransitItems today items).filter
          (fun it => it.category == c && effLeCutoff cutoff it)) ∧
    inTransitTotal today items c
      = sumQty ((intransitItems today items).filter
          (fun it => it.category == c && effLeCutoff cutoff it)) +
        sumQty ((intransitItems today items).filter
          (fun it => it.category == c && !effLeCutoff cutoff it)) ∧
    (∀ it : Item, effLeCutoff cutoff it = false ↔
      (effArrival it = none ∨ ∃ e, effArrival it = some e ∧ cutoff < e)) := by
  refine ⟨rfl, (sumQty_filter_split _ _ _).symm, ?_⟩
  intro it
  cases h : effArrival it with
  | none => simp [effLeCutoff, h]
  | some e =>
    simp only [effLeCutoff, h, decide_eq_false_iff_not, Int.not_le]
    constructor
    · intro he
      exact Or.inr ⟨e, rfl, he⟩
    · rintro (hc | ⟨e2, he2, hlt⟩)
      · exact absurd hc (by simp)
      · injection he2 with h2
        omega

/-- C2: an item is classified in transit iff it is one of the extracted
items and its destination arrival date is missing or on or after today; in
particular an item with an unknown destination arrival is always in
transit. -/
theorem C2_intransit_iff (today : Int) (items : List Item) (it : Item) :
    it ∈ intransitItems today items ↔
      it ∈ items ∧ (it.etaDest = none ∨ ∃ d, it.etaDest = some d ∧ today ≤ d) := by
  unfold intransitItems
  rw [List.mem_filter]
  cases h : it.etaDest with
  | none => simp [isInTransit, h]
  | some d => simp [isInTransit, h]

lemma matchAtoms_head {a : List String} {rest : List (List String)} {s : List Char}
    (h : matchAtoms (a :: rest) s = true) : matchAtoms [a] s = true := by
  unfold matchAtoms at h ⊢
  rcases List.any_eq_true.1 h with ⟨lit, hmem, hlit⟩
  apply List.any_eq_true.2
  refine ⟨lit, hmem, ?_⟩
  cases haf : afterFirst lit.data s with
  | none => rw [haf] at hlit; exact absurd hlit (by simp)
  | some r => rfl

/-- C3 counterexample: 甜白色粉末 is a white-powder text (it contains
白色粉末) that also contains the sweet marker 甜, yet normalize_product
classifies it to the generic white category, not the sweet-white one,
because the sweet rule requires the marker after 白色粉末. -/
theorem C3_counterexample :
    containsLit "白色粉末" "甜白色粉末" = true ∧
    containsLit "甜" "甜白色粉末" = true ∧
    normalize_product "甜白色粉末" = some "白色粉末优镁粉" ∧
    some ("白色粉末优镁粉" : String) ≠ some "白色粉末甜味优镁粉" :=
  ⟨by decide, by decide, by decide, by decide⟩

/-- C3 amended: normalize_product returns the first matching rule target,
and any text whose pre-cleaned form matches the sweet-white pattern
(白色粉末 followed later by T or 甜) classifies to the sweet-white
category, never the generic one, even though the generic catch-all pattern
白色粉末.* also matches that text. -/
theorem C3_sweet_priority (name : String)
    (h : matchAtoms [["白色粉末"], ["T", "甜"]] (preClean (trimChars name.data)) = true) :
    normalize_product name = some "白色粉末甜味优镁粉" ∧
    matchAtoms [["白色粉末"]] (preClean (trimChars name.data)) = true ∧
    ("白色粉末甜味优镁粉" : String) ≠ "白色粉末优镁粉" := by
  have hfind : RULES.find? (fun r => matchAtoms r.1 (preClean (trimChars name.data))) =
      some ([["白色粉末"], ["T", "甜"]], "白色粉末甜味优镁粉") := by
    unfold RULES
    rw [List.find?_cons_of_pos]
    exact h
  refine ⟨?_, matchAtoms_head h, by decide⟩
  unfold normalize_product firstRuleTarget
  rw [hfind]
  rfl

/-- C3 witness: a concrete sweet-marked white-powder text. -/
theorem C3_sweet_priority_witness :
    matchAtoms [["白色粉末"], ["T", "甜"]]
      (preClean (trimChars ("白色粉末T优镁粉" : String).data)) = true ∧
    normalize_product "白色粉末T优镁粉" = some "白色粉末甜味优镁粉" :=
  ⟨by decide, (C3_sweet_priority "白色粉末T优镁粉" (by decide)).1⟩

/-- C4: each of the ten canonical names of the preferred-order list
normalizes to itself, and applying normalization twice to any text gives
the same result as applying it once. -/
theorem C4_idempotent :
    (∀ c ∈ PREFERRED_ORDER, normalize_product c = some c) ∧
    (∀ s : String, (normalize_product s).bind normalize_product = normalize_product s) := by
  constructor
  · decide
  · intro s
    cases h : normalize_product s with
    | none => rfl
    | some c =>
      show normalize_product c = some c
      exact norm_idem_targets c (normalize_mem_targets h)

/-- C4 witness: the generic white category is canonical and normalizes to
itself. -/
theorem C4_idempotent_witness :
    ("白色粉末优镁粉" : String) ∈ PREFERRED_ORDER ∧
    normalize_product "白色粉末优镁粉" = some "白色粉末优镁粉" :=
  ⟨by decide, C4_idempotent.1 "白色粉末优镁粉" (by decide)⟩

/-- C5: for a fixed pair of input tables and fixed today, the projected
stock at the cutoff is monotone non-decreasing in the cutoff date, for
every category. -/
theorem C5_monotone (rows : List TrackRow) (stock : List StockRow) (today : Int)
    (c1 c2 : Int) (hc : c1 ≤ c2) (c : String) :
    projectedStock stock (itemsOf rows) today c1 c
      ≤ projectedStock stock (itemsOf rows) today c2 c := by
  unfold projectedStock
  refine add_le_add_left ?_ _
  unfold arriveByCutoff
  apply sumQty_filter_mono
  · intro x hx hpx
    rw [Bool.and_eq_true] at hpx ⊢
    rcases hpx with ⟨hcat, heff⟩
    refine ⟨hcat, ?_⟩
    cases he : effArrival x with
    | none => simp [effLeCutoff, he] at heff
    | some e =>
      simp only [effLeCutoff, he, decide_eq_true_eq] at heff ⊢
      omega
  · intro x hx
    have hx2 : x ∈ itemsOf rows := List.mem_of_mem_filter hx
    unfold itemsOf at hx2
    rcases List.mem_flatMap.1 hx2 with ⟨row, hrow, hmem⟩
    exact (split_items_sound hmem).2

/-- A concrete tracking row for the monotonicity witness. -/
def exRow5 : TrackRow :=
  { prodText := "20吨白色粉末", container := none, shipDate := some 19783,
    etaPort := some 19787, etaDest := none, warehouse := none, carrier := none }

/-- C5 witness: a concrete pair of cutoffs around the arrival of a
concrete shipment. -/
theorem C5_monotone_witness :
    (19785 : Int) ≤ 19790 ∧
    projectedStock [] (itemsOf [exRow5]) 19783 19785 "白色粉末优镁粉"
      ≤ projectedStock [] (itemsOf [exRow5]) 19783 19790 "白色粉末优镁粉" :=
  ⟨by decide, C5_monotone [exRow5] [] 19783 19785 19790 (by decide) "白色粉末优镁粉"⟩

/-- A concrete tracking row whose product text names the eleventh rule
target. -/
def exRow9 : TrackRow :=
  { prodText := "白色粉末优乐粉5吨", container := none, shipDate := some 0,
    etaPort := none, etaDest := none, warehouse := none, carrier := none }

unseal Rat.add in
/-- C9 counterexample: the rule target 白色粉末优乐粉 is not one of the
ten canonical categories, yet split_product_items emits an item carrying
it, and that item enters the in-transit aggregation with its quantity. -/
theorem C9_counterexample :
    (split_product_items exRow9).map Item.category = ["白色粉末优乐粉"] ∧
    ("白色粉末优乐粉" : String) ∉ PREFERRED_ORDER ∧
    inTransitTotal 0 (itemsOf [exRow9]) "白色粉末优乐粉" = 5 :=
  ⟨by decide, by decide, by decide⟩

/-- C9 amended: every item emitted by split_product_items has a category
among the rule targets — the ten canonical names plus the extra target
白色粉末优乐粉 — and a nonnegative quantity. -/
theorem C9_targets (row : TrackRow) (it : Item) (h : it ∈ split_product_items row) :
    it.category ∈ RULES.map Prod.snd ∧
    (it.category ∈ PREFERRED_ORDER ∨ it.category = "白色粉末优乐粉") ∧
    0 ≤ it.qty := by
  rcases split_items_sound h with ⟨hm, hq⟩
  refine ⟨hm, ?_, hq⟩
  have hall : ∀ c ∈ RULES.map Prod.snd,
      c ∈ PREFERRED_ORDER ∨ c = "白色粉末优乐粉" := by decide
  exact hall _ hm

/-- A concrete tracking row for the C9 witness. -/
def exRow9w : TrackRow :=
  { prodText := "20吨白色粉末", container := none, shipDate := none,
    etaPort := none, etaDest := none, warehouse := none, carrier := none }

/-- The item that split_product_items extracts from the C9 witness row. -/
def exItem9w : Item :=
  { container := none, rawText := "20吨白色粉末", category := "白色粉末优镁粉",
    qty := 20, shipDate := none, etaPort := none, etaDest := none,
    warehouse := none, carrier := none }

/-- C9 witness: the concrete extracted item satisfies the amended
invariant. -/
theorem C9_targets_witness :
    exItem9w ∈ split_product_items exRow9w ∧
    exItem9w.category ∈ RULES.map Prod.snd ∧
    0 ≤ exItem9w.qty :=
  ⟨by decide, (C9_targets exRow9w exItem9w (by decide)).1,
    (C9_targets exRow9w exItem9w (by decide)).2.2⟩

/-- C7: an in-transit item with a ship date and a port arrival (destination
ETA as the fallback when the port ETA is absent) gets exactly the label
装货日期YYYY-MM-DD（N天到） with N the day difference from ship date to
port arrival; an item lacking either date gets no label, and the
in-transit total splits into the labelled and unlabelled quantities, so
unlabelled items still count toward the total. -/
theorem C7_labels :
    (∀ (it : Item) (sd pe : Int), it.shipDate = some sd → effPortFirst it = some pe →
      label_for it = some ("装货日期" ++ fmtDate sd ++ "（" ++ toString (pe - sd) ++ "天到）")) ∧
    (∀ it : Item, it.shipDate = none ∨ effPortFirst it = none → label_for it = none) ∧
    (∀ (today : Int) (items : List Item) (c : String),
      inTransitTotal today items c =
        sumQty ((intransitItems today items).filter
          (fun it => it.category == c && (label_for it).isSome)) +
        sumQty ((intransitItems today items).filter
          (fun it => it.category == c && !(label_for it).isSome))) := by
  refine ⟨?_, ?_, ?_⟩
  · intro it sd pe h1 h2
    unfold label_for
    rw [h1, h2]
  · intro it h
    rcases h with h | h
    · unfold label_for
      rw [h]
    · unfold label_for
      rw [h]
      cases it.shipDate <;> rfl
  · intro today items c
    exact (sumQty_filter_split _ _ _).symm

/-- A concrete in-transit item for the label witness: loaded 2024-03-01,
port ETA 2024-03-05, destination ETA unknown. -/
def exItem7 : Item :=
  { container := none, rawText := "20吨白色粉末", category := "白色粉末优镁粉",
    qty := 20, shipDate := some 19783, etaPort := some 19787, etaDest := none,
    warehouse := none, carrier := none }

/-- C7 witness: the concrete item gets exactly the four-day label. -/
theorem C7_labels_witness :
    exItem7.shipDate = some 19783 ∧ effPortFirst exItem7 = some 19787 ∧
    label_for exItem7 =
      some ("装货日期" ++ fmtDate 19783 ++ "（" ++ toString ((19787 : Int) - 19783) ++ "天到）") ∧
    label_for exItem7 = some "装货日期2024-03-01（4天到）" :=
  ⟨rfl, rfl, C7_labels.1 exItem7 19783 19787 rfl rfl, by decide⟩

/-- C10: make_events_for_product silently drops any item whose ship date is
missing — no event is produced even when the arrival date is known and in
the window — while the ship-date-plus-7 default applies only to a missing
arrival date. -/
theorem C10_missing_ship :
    (∀ (ws wd : Int) (r : Item), r.shipDate = none → evOf ws wd r = none) ∧
    (∀ (ws wd : Int) (r : Item) (sd : Int), r.shipDate = some sd → effArrival r = none →
      ∀ ev, evOf ws wd r = some ev →
        ev.endD = min (sd + 7) (ws + wd - 1) ∧ ev.days = 8) := by
  constructor
  · intro ws wd r h
    unfold evOf
    rw [h]
  · intro ws wd r sd hs he ev hev
    unfold evOf at hev
    rw [hs, he] at hev
    simp only [Option.getD_none] at hev
    split at hev
    · exact absurd hev (by simp)
    · have h2 := Option.some.inj hev
      subst h2
      refine ⟨rfl, ?_⟩
      show sd + 7 - sd + 1 = (8 : Int)
      omega

/-- A concrete item with no ship date but a known destination arrival
inside the window. -/
def exItem10 : Item :=
  { container := none, rawText := "x", category := "白色粉末优镁粉", qty := 1,
    shipDate := none, etaPort := none, etaDest := some 19727,
    warehouse := none, carrier := none }

/-- C10 witness: the item with missing ship date yields no event although
its arrival 19727 lies inside the window starting 19727. -/
theorem C10_missing_ship_witness :
    exItem10.shipDate = none ∧ exItem10.etaDest = some 19727 ∧
    evOf 19727 3 exItem10 = none :=
  ⟨rfl, rfl, C10_missing_ship.1 19727 3 exItem10 rfl⟩

/-- The concrete C6 item: shipped 2024-01-01, destination ETA 2024-01-10. -/
def exItem6 : Item :=
  { container := none, rawText := "x", category := "白色粉末优镁粉", qty := 20,
    shipDate := some (daysFromCivil 2024 1 1), etaPort := none,
    etaDest := some (daysFromCivil 2024 1 10), warehouse := none, carrier := some "货运A" }

/-- The event the C6 item yields under the window 2024-01-05 .. 2024-01-07. -/
def exEv6 : Ev :=
  { startD := 19727, endD := 19729, datestr := "2024-01-01 ~ 2024-01-10", days := 10,
    qty := 20, carrier := "货运A", warehouse := "", container := "" }

/-- C6: event construction clips the full interval (ship date to effective
arrival, defaulting to ship date + 7) to the window, discards events whose
clipped interval is empty, and keeps the unclipped day count for the label;
concretely, the interval 2024-01-01 .. 2024-01-10 under the window
2024-01-05 .. 2024-01-07 yields exactly one event, one visible week-row
segment spanning those three days (columns Friday to Sunday), with the
label still reporting the 10-day span. -/
theorem C6_clipping :
    (∀ (ws wd : Int) (r : Item) (sd : Int), r.shipDate = some sd →
      (evOf ws wd r = none ↔
        min ((effArrival r).getD (sd + 7)) (ws + wd - 1) < max sd ws) ∧
      (∀ ev, evOf ws wd r = some ev →
        ev.startD = max sd ws ∧
        ev.endD = min ((effArrival r).getD (sd + 7)) (ws + wd - 1) ∧
        ev.days = (effArrival r).getD (sd + 7) - sd + 1)) ∧
    (make_events_for_product [exItem6] "白色粉末优镁粉" 19727 3 = [exEv6] ∧
     exEv6.startD = daysFromCivil 2024 1 5 ∧ exEv6.endD = daysFromCivil 2024 1 7 ∧
     exEv6.days = 10 ∧
     segsOfEvent (weekRowsOfWindow 19727 3) exEv6 = [(daysFromCivil 2024 1 1, 4, 3)]) := by
  constructor
  · intro ws wd r sd hs
    constructor
    · simp only [evOf, hs]
      split
      next hcond => exact iff_of_true rfl hcond
      next hcond => exact iff_of_false (by simp) hcond
    · intro ev hev
      simp only [evOf, hs] at hev
      split at hev
      · exact absurd hev (by simp)
      · have h2 := Option.some.inj hev
        subst h2
        exact ⟨rfl, rfl, rfl⟩
  · exact ⟨by decide, by decide, by decide, by decide, by decide⟩

/-- C6 witness: the clipping characterization applied to the concrete
item and window. -/
theorem C6_clipping_witness :
    exItem6.shipDate = some 19723 ∧
    (evOf 19727 3 exItem6 = none ↔
      min ((effArrival exItem6).getD (19723 + 7)) (19727 + 3 - 1) < max 19723 19727) :=
  ⟨by decide, (C6_clipping.1 19727 3 exItem6 19723 (by decide)).1⟩

lemma withPal_mem_keys {x : String × String} {n : Nat} {cs : List String}
    (h : x ∈ withPal n cs) : x.1 ∈ cs := by
  induction cs generalizing n with
  | nil => simp [withPal] at h
  | cons c tl ih =>
    unfold withPal at h
    rcases List.mem_cons.1 h with h | h
    · subst h
      exact List.mem_cons_self _ _
    · exact List.mem_cons_of_mem _ (ih h)

lemma withPal_lookup (cs : List String) (hnd : cs.Nodup) (n i : Nat) (hi : i < cs.length) :
    (withPal n cs).find? (fun q => q.1 == cs.get ⟨i, hi⟩)
      = some (cs.get ⟨i, hi⟩, palAt (n + i)) := by
  induction cs generalizing n i with
  | nil => exact absurd hi (by simp)
  | cons c tl ih =>
    cases i with
    | zero =>
      unfold withPal
      rw [List.find?_cons_of_pos]
      · rfl
      · simp
    | succ j =>
      have hj : j < tl.length := by simpa using hi
      have hne : c ≠ tl.get ⟨j, hj⟩ := by
        intro hEq
        exact (List.nodup_cons.1 hnd).1 (hEq ▸ tl.get_mem j hj)
      have hget : (c :: tl).get ⟨j + 1, hi⟩ = tl.get ⟨j, hj⟩ := rfl
      rw [hget]
      unfold withPal
      rw [List.find?_cons_of_neg]
      · rw [ih (List.nodup_cons.1 hnd).2 (n + 1) j hj]
        have hadd : n + 1 + j = n + (j + 1) := by omega
        rw [hadd]
      · simpa using hne

lemma sortedCarriers_nodup (l : List Item) : (sortedCarriers l).Nodup :=
  (List.perm_insertionSort (fun a b => a ≤ b) (carriersOf l)).symm.nodup
    (List.nodup_dedup _)

lemma sortedCarriers_perm_invariant {l1 l2 : List Item} (h : l1.Perm l2) :
    sortedCarriers l1 = sortedCarriers l2 := by
  unfold sortedCarriers
  exact List.eq_of_perm_of_sorted
    (((List.perm_insertionSort _ _).trans
      ((List.Perm.filterMap Item.carrier h).dedup)).trans
      (List.perm_insertionSort _ _).symm)
    (List.sorted_insertionSort _ _) (List.sorted_insertionSort _ _)

/-- C8: the carrier color map depends only on the set of distinct
non-missing carriers (it is invariant under reordering of the item rows);
the i-th lexicographically sorted carrier gets the palette entry at index
i modulo the palette length; a name outside the distinct carrier set —
in particular the empty name standing for a missing carrier — gets the
neutral default, not a palette slot. -/
theorem C8_colors :
    (∀ l1 l2 : List Item, l1.Perm l2 → colorMapOf l1 = colorMapOf l2) ∧
    (∀ (l : List Item) (i : Nat) (hi : i < (sortedCarriers l).length),
      colorGet (colorMapOf l) "#e8e8e8" ((sortedCarriers l).get ⟨i, hi⟩) = palAt i) ∧
    (∀ (l : List Item) (c : String), c ∉ carriersOf l →
      colorGet (colorMapOf l) "#e8e8e8" c = "#e8e8e8") := by
  refine ⟨?_, ?_, ?_⟩
  · intro l1 l2 h
    unfold colorMapOf
    rw [sortedCarriers_perm_invariant h]
  · intro l i hi
    unfold colorMapOf colorGet
    rw [withPal_lookup _ (sortedCarriers_nodup l) 0 i hi]
    simp
  · intro l c hc
    unfold colorMapOf colorGet
    have hnone : (withPal 0 (sortedCarriers l)).find? (fun q => q.1 == c) = none := by
      rw [List.find?_eq_none]
      intro x hx
      have hmem := withPal_mem_keys hx
      have hcar : x.1 ∈ carriersOf l :=
        (List.perm_insertionSort (fun a b => a ≤ b) (carriersOf l)).mem_iff.1 hmem
      simp only [beq_eq_false_iff_ne, ne_eq, Bool.not_eq_true]
      intro hEq
      exact hc (hEq ▸ hcar)
    rw [hnone]
    rfl

/-- Two concrete item lists that are permutations of each other. -/
def exItemsA : List Item :=
  [{ container := none, rawText := "x", category := "c", qty := 1, shipDate := none,
     etaPort := none, etaDest := none, warehouse := none, carrier := some "乙" },
   { container := none, rawText := "y", category := "c", qty := 1, shipDate := none,
     etaPort := none, etaDest := none, warehouse := none, carrier := some "甲" }]

/-- The same items in the opposite order. -/
def exItemsB : List Item :=
  [{ container := none, rawText := "y", category := "c", qty := 1, shipDate := none,
     etaPort := none, etaDest := none, warehouse := none, carrier := some "甲" },
   { container := none, rawText := "x", category := "c", qty := 1, shipDate := none,
     etaPort := none, etaDest := none, warehouse := none, carrier := some "乙" }]

/-- C8 witness: reordering the rows keeps the color map, and the empty
carrier name gets the neutral default. -/
theorem C8_colors_witness :
    exItemsA.Perm exItemsB ∧
    colorMapOf exItemsA = colorMapOf exItemsB ∧
    colorGet (colorMapOf exItemsA) "#e8e8e8" "" = "#e8e8e8" :=
  ⟨by decide, C8_colors.1 exItemsA exItemsB (by decide),
    C8_colors.2.2 exItemsA "" (by decide)⟩
